import Mathlib

/-!
Verification development for the IMLE-lab repository core
(`src/demo/imle_model.ts`, `src/demo/imlelab.ts`, and the two earlier
variants `src/unnamed/part_000`, `src/unnamed/part_001`).

The model's tensors hold 2-D points and distance matrices; we embed them
as lists of exact rationals (the float values appearing in the claims are
exactly representable) and, where a square root or `tanh` is involved
(the `Barrier` metric, weight-initialisation standard deviations, the
generator's output squashing), as real numbers.
-/

/-- A 2-D point, one row of a `[N, 2]` tensor. -/
abbrev Point : Type := ℚ × ℚ

/-- Distance matrix of `nearest_neighbour` (`src/unnamed/part_000` lines 75-81,
and the `L1`/default-`L2` branches of the `switch` in
`src/demo/imle_model.ts` lines 84-102): entry `(i, j)` reduces the last axis
of `real[i] - gen[j]` by `abs`-sum for `"L1"` and by square-sum (squared L2)
for every other metric name.  The `Barrier` branch of
`src/demo/imle_model.ts` involves a square root and is embedded separately
over the reals as `distanceEntry`. -/
def distancesQ (distanceType : String) (realData generatedData : List Point) :
    List (List ℚ) :=
  if distanceType = "L1" then
    realData.map (fun p => generatedData.map (fun q => |p.1 - q.1| + |p.2 - q.2|))
  else
    realData.map (fun p => generatedData.map (fun q => (p.1 - q.1) ^ 2 + (p.2 - q.2) ^ 2))

/-- Any metric name other than `"L1"` (so `"L2"`, `"Barrier"` is not representable
here, and every unknown name) takes the default squared-L2 branch. -/
theorem distancesQ_eq_L2 (distanceType : String) (h : distanceType ≠ "L1")
    (realData generatedData : List Point) :
    distancesQ distanceType realData generatedData
      = realData.map (fun p => generatedData.map (fun q =>
          (p.1 - q.1) ^ 2 + (p.2 - q.2) ^ 2)) := by
  simp only [distancesQ, if_neg h]

/-- Column-wise minimum of a matrix: `distances.min(0)` in
`src/demo/imle_model.ts` line 105.  On a rectangular non-empty matrix this
yields, for each column `j`, the minimum over the rows. -/
def minDist : List (List ℚ) → List ℚ
  | [] => []
  | [r] => r
  | r :: rs => List.zipWith min r (minDist rs)

/-- First-occurrence argmin of a list, the semantics of `argMin(1)` applied
to one row (`src/demo/imle_model.ts` line 120): the least index attaining
the minimum value. -/
def argminIdx : List ℚ → ℕ
  | [] => 0
  | [_] => 0
  | d :: e :: rest =>
    if d ≤ (e :: rest).getD (argminIdx (e :: rest)) 0 then 0
    else argminIdx (e :: rest) + 1

/-- First-occurrence argmax of a list, the semantics of `minDistToReal.argMax()`
(`src/demo/imle_model.ts` line 109). -/
def argmaxIdx : List ℚ → ℕ
  | [] => 0
  | [_] => 0
  | d :: e :: rest =>
    if (e :: rest).getD (argmaxIdx (e :: rest)) 0 ≤ d then 0
    else argmaxIdx (e :: rest) + 1

/-- The unforced rejection filter `minDistToReal.greater(epsilon)`
(`src/demo/imle_model.ts` line 106). -/
def keepMaskBase (D : List (List ℚ)) (epsilon : ℚ) : List Bool :=
  (minDist D).map (fun d => decide (epsilon < d))

/-- The force-keep indicator `range(0, depth).equal(farIdxScalar)`
(`src/demo/imle_model.ts` lines 109-112); on the rectangular matrices the
code feeds it, `(minDist D).length` is `depth = generatedData.shape[0]`. -/
def forceKeep (D : List (List ℚ)) : List Bool :=
  (List.range (minDist D).length).map (fun j => decide (j = argmaxIdx (minDist D)))

/-- The final keep mask `keepMask.logicalOr(forceKeep)`
(`src/demo/imle_model.ts` line 113). -/
def keepMask (D : List (List ℚ)) (epsilon : ℚ) : List Bool :=
  List.zipWith (fun a b => a || b) (keepMaskBase D epsilon) (forceKeep D)

/-- Masked distances `distances.add(keepMask.logicalNot().toFloat().mul(1e9))`
(`src/demo/imle_model.ts` lines 116-118): rejected columns get `1e9` added. -/
def maskedDistances (D : List (List ℚ)) (epsilon : ℚ) : List (List ℚ) :=
  D.map (fun row =>
    List.zipWith (fun d k => d + (if k then 0 else 1) * 10 ^ 9) row (keepMask D epsilon))

/-- The matcher stage of `nearest_neighbour` (`src/demo/imle_model.ts`
lines 104-120) on an already-computed distance matrix: per-row argmin of the
masked distances. -/
def nnMatch (D : List (List ℚ)) (epsilon : ℚ) : List ℕ :=
  (maskedDistances D epsilon).map argminIdx

/-- `nearest_neighbour` of `src/demo/imle_model.ts` (lines 79-122) for the
exact-rational metrics (`L1` and the default squared `L2`): distance matrix,
rejection filter, force-keep, masked per-row argmin. -/
def nearest_neighbour (distanceType : String) (epsilon : ℚ)
    (realData generatedData : List Point) : List ℕ :=
  nnMatch (distancesQ distanceType realData generatedData) epsilon

theorem getD_zipWith_of_lt {α β γ : Type} (f : α → β → γ) :
    ∀ (a : List α) (b : List β) (j : ℕ), j < a.length → j < b.length →
      ∀ (da : α) (db : β) (dc : γ),
        (List.zipWith f a b).getD j dc = f (a.getD j da) (b.getD j db) := by
  intro a
  induction a with
  | nil => intro b j hja; simp at hja
  | cons x xs ih =>
    intro b j hja hjb da db dc
    cases b with
    | nil => simp at hjb
    | cons y ys =>
      cases j with
      | zero => simp
      | succ k =>
        simpa using ih ys k (by simpa using hja) (by simpa using hjb) da db dc

theorem getD_map_of_lt {α β : Type} (f : α → β) :
    ∀ (l : List α) (j : ℕ), j < l.length → ∀ (da : α) (db : β),
      (l.map f).getD j db = f (l.getD j da) := by
  intro l
  induction l with
  | nil => intro j hj; simp at hj
  | cons x xs ih =>
    intro j hj da db
    cases j with
    | zero => simp
    | succ k => simpa using ih k (by simpa using hj) da db

theorem getD_range_of_lt (n j : ℕ) (hj : j < n) (d : ℕ) :
    (List.range n).getD j d = j := by
  rw [List.getD_eq_getElem _ _ (by simpa using hj)]
  simp

theorem argminIdx_lt_length : ∀ (l : List ℚ), l ≠ [] → argminIdx l < l.length := by
  intro l
  induction l with
  | nil => intro h; exact absurd rfl h
  | cons d tail ih =>
    intro _
    cases tail with
    | nil => simp [argminIdx]
    | cons e rest =>
      simp only [argminIdx]
      by_cases h : d ≤ (e :: rest).getD (argminIdx (e :: rest)) 0
      · rw [if_pos h]; simp
      · rw [if_neg h]
        have hlt := ih (by simp)
        simpa [Nat.succ_lt_succ_iff] using hlt

theorem argminIdx_le :
    ∀ (l : List ℚ) (j : ℕ), j < l.length →
      l.getD (argminIdx l) 0 ≤ l.getD j 0 := by
  intro l
  induction l with
  | nil => intro j hj; simp at hj
  | cons d tail ih =>
    intro j hj
    cases tail with
    | nil =>
      have hj0 : j = 0 := by simpa using Nat.lt_one_iff.mp (by simpa using hj)
      subst hj0; simp [argminIdx]
    | cons e rest =>
      simp only [argminIdx]
      by_cases h : d ≤ (e :: rest).getD (argminIdx (e :: rest)) 0
      · rw [if_pos h]
        cases j with
        | zero => simp
        | succ k =>
          have hk : k < (e :: rest).length := by simpa using hj
          calc (d :: e :: rest).getD 0 0 = d := rfl
            _ ≤ (e :: rest).getD (argminIdx (e :: rest)) 0 := h
            _ ≤ (e :: rest).getD k 0 := ih k hk
            _ = (d :: e :: rest).getD (k + 1) 0 := rfl
      · rw [if_neg h]
        cases j with
        | zero =>
          have hd : (e :: rest).getD (argminIdx (e :: rest)) 0 < d := lt_of_not_le h
          simpa using le_of_lt hd
        | succ k => simpa using ih k (by simpa using hj)

theorem argminIdx_first :
    ∀ (l : List ℚ) (j : ℕ), j < l.length →
      l.getD j 0 ≤ l.getD (argminIdx l) 0 → argminIdx l ≤ j := by
  intro l
  induction l with
  | nil => intro j hj; simp at hj
  | cons d tail ih =>
    intro j hj hle
    cases tail with
    | nil => simp [argminIdx]
    | cons e rest =>
      simp only [argminIdx] at hle ⊢
      by_cases h : d ≤ (e :: rest).getD (argminIdx (e :: rest)) 0
      · rw [if_pos h]; exact Nat.zero_le _
      · rw [if_neg h]
        rw [if_neg h] at hle
        cases j with
        | zero =>
          exact absurd (by simpa using hle) h
        | succ k =>
          have hk : k < (e :: rest).length := by simpa using hj
          have : argminIdx (e :: rest) ≤ k := ih k hk (by simpa using hle)
          omega

theorem argmaxIdx_lt_length : ∀ (l : List ℚ), l ≠ [] → argmaxIdx l < l.length := by
  intro l
  induction l with
  | nil => intro h; exact absurd rfl h
  | cons d tail ih =>
    intro _
    cases tail with
    | nil => simp [argmaxIdx]
    | cons e rest =>
      simp only [argmaxIdx]
      by_cases h : (e :: rest).getD (argmaxIdx (e :: rest)) 0 ≤ d
      · rw [if_pos h]; simp
      · rw [if_neg h]
        have hlt := ih (by simp)
        simpa [Nat.succ_lt_succ_iff] using hlt

theorem argmaxIdx_ge :
    ∀ (l : List ℚ) (j : ℕ), j < l.length →
      l.getD j 0 ≤ l.getD (argmaxIdx l) 0 := by
  intro l
  induction l with
  | nil => intro j hj; simp at hj
  | cons d tail ih =>
    intro j hj
    cases tail with
    | nil =>
      have hj0 : j = 0 := by simpa using Nat.lt_one_iff.mp (by simpa using hj)
      subst hj0; simp [argmaxIdx]
    | cons e rest =>
      simp only [argmaxIdx]
      by_cases h : (e :: rest).getD (argmaxIdx (e :: rest)) 0 ≤ d
      · rw [if_pos h]
        cases j with
        | zero => simp
        | succ k =>
          have hk : k < (e :: rest).length := by simpa using hj
          calc (d :: e :: rest).getD (k + 1) 0 = (e :: rest).getD k 0 := rfl
            _ ≤ (e :: rest).getD (argmaxIdx (e :: rest)) 0 := ih k hk
            _ ≤ d := h
            _ = (d :: e :: rest).getD 0 0 := rfl
      · rw [if_neg h]
        cases j with
        | zero =>
          have hd : d < (e :: rest).getD (argmaxIdx (e :: rest)) 0 := lt_of_not_le h
          simpa using le_of_lt hd
        | succ k => simpa using ih k (by simpa using hj)

theorem minDist_length :
    ∀ (D : List (List ℚ)) (P : ℕ), D ≠ [] → (∀ r ∈ D, r.length = P) →
      (minDist D).length = P := by
  intro D
  induction D with
  | nil => intro P h; exact absurd rfl h
  | cons r rs ih =>
    intro P _ hrow
    cases rs with
    | nil => simpa [minDist] using hrow r (by simp)
    | cons r2 rs2 =>
      have h1 : r.length = P := hrow r (by simp)
      have h2 : (minDist (r2 :: rs2)).length = P :=
        ih P (by simp) (fun s hs => hrow s (by simp [hs]))
      simp only [minDist, List.length_zipWith, h1, h2, min_self]

theorem length_keepMaskBase (D : List (List ℚ)) (epsilon : ℚ) :
    (keepMaskBase D epsilon).length = (minDist D).length := by
  simp [keepMaskBase]

theorem length_forceKeep (D : List (List ℚ)) :
    (forceKeep D).length = (minDist D).length := by
  simp [forceKeep]

theorem length_keepMask (D : List (List ℚ)) (epsilon : ℚ) :
    (keepMask D epsilon).length = (minDist D).length := by
  simp [keepMask, keepMaskBase, forceKeep]

theorem keepMaskBase_getD (D : List (List ℚ)) (epsilon : ℚ) (k : ℕ)
    (hk : k < (minDist D).length) :
    (keepMaskBase D epsilon).getD k false = decide (epsilon < (minDist D).getD k 0) := by
  exact getD_map_of_lt _ _ k hk 0 false

theorem forceKeep_getD (D : List (List ℚ)) (k : ℕ)
    (hk : k < (minDist D).length) :
    (forceKeep D).getD k false = decide (k = argmaxIdx (minDist D)) := by
  rw [forceKeep, getD_map_of_lt _ _ k (by simpa using hk) 0 false,
    getD_range_of_lt _ k hk 0]

theorem keepMask_getD (D : List (List ℚ)) (epsilon : ℚ) (k : ℕ)
    (hk : k < (minDist D).length) :
    (keepMask D epsilon).getD k false
      = ((keepMaskBase D epsilon).getD k false || (forceKeep D).getD k false) := by
  exact getD_zipWith_of_lt _ _ _ k (by rw [length_keepMaskBase]; exact hk)
    (by rw [length_forceKeep]; exact hk) false false false

theorem keepMask_getD_argmax (D : List (List ℚ)) (epsilon : ℚ)
    (h : minDist D ≠ []) :
    (keepMask D epsilon).getD (argmaxIdx (minDist D)) false = true := by
  have ha : argmaxIdx (minDist D) < (minDist D).length := argmaxIdx_lt_length _ h
  rw [keepMask_getD D epsilon _ ha, forceKeep_getD D _ ha]
  simp

theorem length_distancesQ (distanceType : String) (realData generatedData : List Point) :
    (distancesQ distanceType realData generatedData).length = realData.length := by
  rw [distancesQ]; split <;> simp

theorem distancesQ_row_length (distanceType : String)
    (realData generatedData : List Point) :
    ∀ r ∈ distancesQ distanceType realData generatedData,
      r.length = generatedData.length := by
  intro r hr
  rw [distancesQ] at hr
  split at hr <;>
    (obtain ⟨p, _, rfl⟩ := List.mem_map.mp hr; simp)

/-- C2: for every metric name, every `epsilon ≥ 0`, every non-empty real batch and
every non-empty candidate pool, the keep mask built inside `nearest_neighbour`
(the unforced filter `minDistToReal > epsilon` OR-ed with the indicator of the
argmax of `minDistToReal`) has at least one `true` entry. -/
theorem C2_keepMask_has_true (distanceType : String) (epsilon : ℚ)
    (realData generatedData : List Point) (_heps : 0 ≤ epsilon)
    (hreal : realData ≠ []) (hgen : generatedData ≠ []) :
    true ∈ keepMask (distancesQ distanceType realData generatedData) epsilon := by
  have hD : distancesQ distanceType realData generatedData ≠ [] := by
    intro hnil
    have := length_distancesQ distanceType realData generatedData
    rw [hnil] at this
    exact hreal (List.length_eq_zero.mp this.symm)
  have hmlen : (minDist (distancesQ distanceType realData generatedData)).length
      = generatedData.length :=
    minDist_length _ _ hD (distancesQ_row_length _ _ _)
  have hm : minDist (distancesQ distanceType realData generatedData) ≠ [] := by
    intro hnil
    rw [hnil] at hmlen
    exact hgen (List.length_eq_zero.mp hmlen.symm)
  have ha : argmaxIdx (minDist (distancesQ distanceType realData generatedData))
      < (keepMask (distancesQ distanceType realData generatedData) epsilon).length := by
    rw [length_keepMask]
    exact argmaxIdx_lt_length _ hm
  have hv := keepMask_getD_argmax (distancesQ distanceType realData generatedData) epsilon hm
  rw [List.getD_eq_getElem _ _ ha] at hv
  exact hv ▸ List.getElem_mem _

theorem C2_keepMask_has_true_witness :
    true ∈ keepMask (distancesQ "L2" [((0 : ℚ), (0 : ℚ))] [((0 : ℚ), (0 : ℚ))]) 0 :=
  C2_keepMask_has_true "L2" 0 [((0 : ℚ), (0 : ℚ))] [((0 : ℚ), (0 : ℚ))]
    (by norm_num) (by simp) (by simp)

/-- C10: on any distance matrix, if some candidate passes the unforced rejection
filter, then the argmax of `minDistToReal` itself passes it, and the keep mask
after the logical-OR with the force-keep indicator equals the unforced mask:
the force-keep step is a no-op. -/
theorem C10_forceKeep_noop (D : List (List ℚ)) (epsilon : ℚ)
    (h : ∃ j, j < (minDist D).length ∧ epsilon < (minDist D).getD j 0) :
    epsilon < (minDist D).getD (argmaxIdx (minDist D)) 0
    ∧ keepMask D epsilon = keepMaskBase D epsilon := by
  obtain ⟨j, hj, hgt⟩ := h
  have hm : minDist D ≠ [] := by
    intro hnil; rw [hnil] at hj; simp at hj
  have hamax : epsilon < (minDist D).getD (argmaxIdx (minDist D)) 0 :=
    lt_of_lt_of_le hgt (argmaxIdx_ge _ j hj)
  refine ⟨hamax, ?_⟩
  apply List.ext_getElem (by rw [length_keepMask, length_keepMaskBase])
  intro k h1 h2
  have hk : k < (minDist D).length := by rwa [length_keepMask] at h1
  rw [← List.getD_eq_getElem _ false h1, ← List.getD_eq_getElem _ false h2,
    keepMask_getD D epsilon k hk, forceKeep_getD D k hk, keepMaskBase_getD D epsilon k hk]
  by_cases hka : k = argmaxIdx (minDist D)
  · subst hka
    rw [decide_eq_true hamax]
    simp
  · rw [decide_eq_false hka]
    simp

theorem C10_forceKeep_noop_witness :
    (1 : ℚ) < (minDist [[(0 : ℚ), 5]]).getD (argmaxIdx (minDist [[(0 : ℚ), 5]])) 0
    ∧ keepMask [[(0 : ℚ), 5]] 1 = keepMaskBase [[(0 : ℚ), 5]] 1 :=
  C10_forceKeep_noop [[(0 : ℚ), 5]] 1 ⟨1, by norm_num [minDist], by norm_num [minDist]⟩

theorem getD_mem_of_lt {α : Type} (l : List α) (i : ℕ) (hi : i < l.length) (d : α) :
    l.getD i d ∈ l := by
  rw [List.getD_eq_getElem _ _ hi]
  exact List.getElem_mem _

theorem length_maskedDistances (D : List (List ℚ)) (epsilon : ℚ) :
    (maskedDistances D epsilon).length = D.length := by
  simp [maskedDistances]

theorem maskedDistances_getD (D : List (List ℚ)) (epsilon : ℚ) (i : ℕ)
    (hi : i < D.length) :
    (maskedDistances D epsilon).getD i []
      = List.zipWith (fun d k => d + (if k then 0 else 1) * 10 ^ 9)
          (D.getD i []) (keepMask D epsilon) := by
  rw [maskedDistances]
  exact getD_map_of_lt _ _ i hi [] []

theorem nnMatch_getD (D : List (List ℚ)) (epsilon : ℚ) (i : ℕ)
    (hi : i < D.length) :
    (nnMatch D epsilon).getD i 0 = argminIdx ((maskedDistances D epsilon).getD i []) := by
  rw [nnMatch]
  exact getD_map_of_lt _ _ i (by rwa [length_maskedDistances]) [] 0

/-- C1 (amended): on a non-empty rectangular distance matrix whose entries all lie
in `[0, 1e9)` — which holds for the L1/L2 distances of any batch whose coordinates
the demo produces — every entry of the match vector is an index into the candidate
pool; it points at a candidate whose keep-mask entry is `true` whenever at least
one candidate passes the unforced rejection filter; and among masked-row minima
the lowest index is returned.  (Without the `< 1e9` bound the keep-mask part is
false: masking only adds `1e9` instead of excluding the column, see the
counterexample.) -/
theorem C1_matchIndices (D : List (List ℚ)) (epsilon : ℚ) (P : ℕ)
    (hD : D ≠ []) (hP : 0 < P) (hrow : ∀ r ∈ D, r.length = P)
    (hent : ∀ r ∈ D, ∀ d ∈ r, 0 ≤ d ∧ d < 10 ^ 9) :
    ∀ i, i < D.length →
      (nnMatch D epsilon).getD i 0 < P
      ∧ ((∃ j, j < P ∧ epsilon < (minDist D).getD j 0) →
          (keepMask D epsilon).getD ((nnMatch D epsilon).getD i 0) false = true)
      ∧ (∀ j, j < P →
          ((maskedDistances D epsilon).getD i []).getD j 0
            = ((maskedDistances D epsilon).getD i []).getD ((nnMatch D epsilon).getD i 0) 0 →
          (nnMatch D epsilon).getD i 0 ≤ j) := by
  intro i hi
  have hmlen : (minDist D).length = P := minDist_length D P hD hrow
  have hklen : (keepMask D epsilon).length = P := by rw [length_keepMask, hmlen]
  have hrowi : (D.getD i []).length = P := hrow _ (getD_mem_of_lt D i hi [])
  have hrowlen : ((maskedDistances D epsilon).getD i []).length = P := by
    rw [maskedDistances_getD D epsilon i hi, List.length_zipWith, hrowi, hklen, min_self]
  have hrowne : (maskedDistances D epsilon).getD i [] ≠ [] := by
    intro hnil; rw [hnil] at hrowlen; simp at hrowlen; omega
  have hargm := nnMatch_getD D epsilon i hi
  have hlt : (nnMatch D epsilon).getD i 0 < P := by
    rw [hargm, ← hrowlen]
    exact argminIdx_lt_length _ hrowne
  -- the value of an entry of the masked row
  have hmaskedval : ∀ j, j < P →
      ((maskedDistances D epsilon).getD i []).getD j 0
        = (D.getD i []).getD j 0
          + (if (keepMask D epsilon).getD j false then 0 else 1) * 10 ^ 9 := by
    intro j hj
    rw [maskedDistances_getD D epsilon i hi]
    exact getD_zipWith_of_lt _ _ _ j (by rwa [hrowi]) (by rwa [hklen]) 0 false 0
  have hentij : ∀ j, j < P →
      0 ≤ (D.getD i []).getD j 0 ∧ (D.getD i []).getD j 0 < 10 ^ 9 := by
    intro j hj
    exact hent _ (getD_mem_of_lt D i hi [])
      _ (getD_mem_of_lt _ j (by rwa [hrowi]) 0)
  refine ⟨hlt, ?_, ?_⟩
  · rintro ⟨j0, hj0, hgt⟩
    by_contra hfalse
    have hkfalse : (keepMask D epsilon).getD ((nnMatch D epsilon).getD i 0) false = false :=
      Bool.not_eq_true _ ▸ eq_false_of_ne_true hfalse
    -- candidate j0 passes the filter, so its keep-mask entry is true
    have hkj0 : (keepMask D epsilon).getD j0 false = true := by
      rw [keepMask_getD D epsilon j0 (by rwa [hmlen]),
        keepMaskBase_getD D epsilon j0 (by rwa [hmlen]), decide_eq_true hgt]
      simp
    -- its masked entry is its plain distance, below 1e9
    have hvj0 : ((maskedDistances D epsilon).getD i []).getD j0 0
        = (D.getD i []).getD j0 0 := by
      rw [hmaskedval j0 hj0, hkj0]; simp
    -- the selected index is rejected, so its masked entry is at least 1e9
    have hvsel : ((maskedDistances D epsilon).getD i []).getD ((nnMatch D epsilon).getD i 0) 0
        = (D.getD i []).getD ((nnMatch D epsilon).getD i 0) 0 + 10 ^ 9 := by
      rw [hmaskedval _ hlt, hkfalse]; simp
    have hmin := argminIdx_le ((maskedDistances D epsilon).getD i []) j0 (by rwa [hrowlen])
    rw [← hargm] at hmin
    rw [hvj0, hvsel] at hmin
    have h1 := (hentij j0 hj0).2
    have h2 := (hentij _ hlt).1
    linarith
  · intro j hj heq
    rw [hargm]
    exact argminIdx_first _ j (by rwa [hrowlen]) (by rw [← hargm, heq])

theorem C1_matchIndices_witness :
    (nnMatch [[(0 : ℚ), 2]] 1).getD 0 0 < 2
    ∧ ((∃ j, j < 2 ∧ (1 : ℚ) < (minDist [[(0 : ℚ), 2]]).getD j 0) →
        (keepMask [[(0 : ℚ), 2]] 1).getD ((nnMatch [[(0 : ℚ), 2]] 1).getD 0 0) false = true)
    ∧ (∀ j, j < 2 →
        ((maskedDistances [[(0 : ℚ), 2]] 1).getD 0 []).getD j 0
          = ((maskedDistances [[(0 : ℚ), 2]] 1).getD 0 []).getD
              ((nnMatch [[(0 : ℚ), 2]] 1).getD 0 0) 0 →
        (nnMatch [[(0 : ℚ), 2]] 1).getD 0 0 ≤ j) :=
  C1_matchIndices [[(0 : ℚ), 2]] 1 2 (by simp) (by norm_num)
    (by intro r hr; simp at hr; simp [hr])
    (by intro r hr d hd; simp at hr; subst hr; simp at hd
        rcases hd with h | h <;> subst h <;> norm_num)
    0 (by norm_num)

/-- C1, as literally stated, is false: with one real point `(0,0)` and candidates
`(0,0)` and `(100000, 0)` under squared L2 and `epsilon = 1/10`, the far candidate
passes the unforced filter (`10^10 > 1/10`), yet the returned match index `0`
points at the rejected near candidate, because masking only adds `1e9` to the
rejected column while the surviving column's distance is `10^10 > 1e9`. -/
theorem C1_counterexample :
    (∃ j, j < 2 ∧ (1 : ℚ) / 10
        < (minDist (distancesQ "L2" [((0 : ℚ), (0 : ℚ))]
            [((0 : ℚ), (0 : ℚ)), (100000, 0)])).getD j 0)
    ∧ (keepMask (distancesQ "L2" [((0 : ℚ), (0 : ℚ))] [((0 : ℚ), (0 : ℚ)), (100000, 0)])
          (1 / 10)).getD
        ((nearest_neighbour "L2" (1 / 10) [((0 : ℚ), (0 : ℚ))]
            [((0 : ℚ), (0 : ℚ)), (100000, 0)]).getD 0 0) false = false := by
  have hD : distancesQ "L2" [((0 : ℚ), (0 : ℚ))] [((0 : ℚ), (0 : ℚ)), (100000, 0)]
      = [[0, 10000000000]] := by
    rw [distancesQ_eq_L2 _ (by decide)]
    norm_num
  have hm : minDist [[(0 : ℚ), 10000000000]] = [0, 10000000000] := by
    norm_num [minDist]
  have hk : keepMask [[(0 : ℚ), 10000000000]] (1 / 10) = [false, true] := by
    norm_num [keepMask, keepMaskBase, forceKeep, hm, argmaxIdx, List.range_succ]
  have hmd : maskedDistances [[(0 : ℚ), 10000000000]] (1 / 10)
      = [[1000000000, 10000000000]] := by
    norm_num [maskedDistances, hk]
  constructor
  · refine ⟨1, by norm_num, ?_⟩
    rw [hD, hm]
    norm_num
  · rw [nearest_neighbour, hD]
    show (keepMask _ _).getD ((List.map argminIdx (maskedDistances _ _)).getD 0 0) false = false
    rw [hmd, hk]
    norm_num [argminIdx]

/-- What one `gOptimizer.minimize` closure invocation consumes: the real batch,
the latent pool, the nearest-neighbour match indices used to gather the matched
noise, and the fresh perturbation drawn inside `imleLoss`. -/
structure LossCall where
  realBatch : List Point
  latentPool : List (List ℚ)
  matchIdx : List ℕ
  perturb : List (List ℚ)

/-- The `kGSteps` training loop of `src/unnamed/part_001` (`iterateTraining`,
lines 810-817 and 1368-1382): the real batch, the latent pool and the
nearest-neighbour indices are computed once, before the loop, from the
pre-loop weights `θ0`; each of the `k` `minimize` calls re-evaluates the loss
closure (consuming the next perturbation draw) on that same assignment, while
the optimizer state `θ` evolves.  Returns the trace of closure inputs and the
final weights. -/
def kGStepsLoop_precomputed {Θ : Type} (generator : Θ → List (List ℚ) → List Point)
    (minimizeStep : Θ → LossCall → Θ) (distanceType : String) (epsilon : ℚ)
    (realBatch : List Point) (latentPoolTrain : List (List ℚ))
    (perturbStream : ℕ → List (List ℚ)) (θ0 : Θ) (k : ℕ) :
    List LossCall × Θ :=
  let genPoolTrain := generator θ0 latentPoolTrain
  let nnIdxTrain := nearest_neighbour distanceType epsilon realBatch genPoolTrain
  (List.range k).foldl
    (fun acc j =>
      let call : LossCall := ⟨realBatch, latentPoolTrain, nnIdxTrain, perturbStream j⟩
      (acc.1 ++ [call], minimizeStep acc.2 call))
    ([], θ0)

/-- The `kGSteps` training loop of `src/demo/imlelab.ts` (`iterateTraining`,
lines 1011-1026): every `minimize` closure re-draws the real batch from the
(advancing) true-sample provider, re-draws the latent pool, regenerates with the
*current* weights and recomputes the nearest-neighbour match inside the step. -/
def kGStepsLoop_demo {Θ : Type} (generator : Θ → List (List ℚ) → List Point)
    (minimizeStep : Θ → LossCall → Θ) (distanceType : String) (epsilon : ℚ)
    (realStream : ℕ → List Point) (latentStream : ℕ → List (List ℚ))
    (perturbStream : ℕ → List (List ℚ)) (θ0 : Θ) (k : ℕ) :
    List LossCall × Θ :=
  (List.range k).foldl
    (fun acc j =>
      let realBatch := realStream j
      let latents := latentStream j
      let genBatch := generator acc.2 latents
      let nnIdx := nearest_neighbour distanceType epsilon realBatch genBatch
      let call : LossCall := ⟨realBatch, latents, nnIdx, perturbStream j⟩
      (acc.1 ++ [call], minimizeStep acc.2 call))
    ([], θ0)

theorem foldl_append_trace {Θ : Type} (call : ℕ → LossCall) (step : Θ → LossCall → Θ) :
    ∀ (k : ℕ) (acc : List LossCall × Θ),
      ((List.range k).foldl
          (fun acc j => (acc.1 ++ [call j], step acc.2 (call j))) acc).1
        = acc.1 ++ (List.range k).map call := by
  intro k
  induction k with
  | zero => intro acc; simp
  | succ n ih =>
    intro acc
    rw [List.range_succ, List.foldl_append, List.map_append]
    simp [ih, List.append_assoc]

theorem kGStepsLoop_precomputed_trace {Θ : Type}
    (generator : Θ → List (List ℚ) → List Point)
    (minimizeStep : Θ → LossCall → Θ) (distanceType : String) (epsilon : ℚ)
    (realBatch : List Point) (latentPoolTrain : List (List ℚ))
    (perturbStream : ℕ → List (List ℚ)) (θ0 : Θ) (k : ℕ) :
    (kGStepsLoop_precomputed generator minimizeStep distanceType epsilon
        realBatch latentPoolTrain perturbStream θ0 k).1
      = (List.range k).map (fun j =>
          ⟨realBatch, latentPoolTrain,
            nearest_neighbour distanceType epsilon realBatch (generator θ0 latentPoolTrain),
            perturbStream j⟩) := by
  show ((List.range k).foldl _ ([], θ0)).1 = _
  rw [foldl_append_trace
    (fun j => ⟨realBatch, latentPoolTrain,
      nearest_neighbour distanceType epsilon realBatch (generator θ0 latentPoolTrain),
      perturbStream j⟩) minimizeStep k ([], θ0)]
  simp

/-- C4 (amended): in the `part_001` orchestrator, each of the `kGSteps` optimizer
steps re-evaluates the loss closure — step `j` consumes perturbation draw `j` —
but differentiates the loss built from the same real batch, the same latent pool
and the same nearest-neighbour match indices, computed once per iteration from
the pre-loop weights, even though the weights evolve between steps.  (The demo
orchestrator in `src/demo/imlelab.ts` instead re-draws the real batch and
recomputes the match inside every step, see the counterexample.) -/
theorem C4_same_assignment {Θ : Type}
    (generator : Θ → List (List ℚ) → List Point)
    (minimizeStep : Θ → LossCall → Θ) (distanceType : String) (epsilon : ℚ)
    (realBatch : List Point) (latentPoolTrain : List (List ℚ))
    (perturbStream : ℕ → List (List ℚ)) (θ0 : Θ) (k j : ℕ) (hj : j < k) :
    (kGStepsLoop_precomputed generator minimizeStep distanceType epsilon
        realBatch latentPoolTrain perturbStream θ0 k).1.getD j ⟨[], [], [], []⟩
      = ⟨realBatch, latentPoolTrain,
          nearest_neighbour distanceType epsilon realBatch (generator θ0 latentPoolTrain),
          perturbStream j⟩ := by
  rw [kGStepsLoop_precomputed_trace,
    getD_map_of_lt _ (List.range k) j (by simpa using hj) 0
      (⟨[], [], [], []⟩ : LossCall),
    getD_range_of_lt k j hj 0]

theorem C4_same_assignment_witness :
    (kGStepsLoop_precomputed (fun (_ : Unit) _ => [((0 : ℚ), (0 : ℚ))])
        (fun _ _ => ()) "L2" 0 [((0 : ℚ), (0 : ℚ))] [[0]] (fun _ => [[0]]) () 2).1.getD 1
        ⟨[], [], [], []⟩
      = ⟨[((0 : ℚ), (0 : ℚ))], [[0]],
          nearest_neighbour "L2" 0 [((0 : ℚ), (0 : ℚ))] [((0 : ℚ), (0 : ℚ))], [[0]]⟩ :=
  C4_same_assignment (fun (_ : Unit) _ => [((0 : ℚ), (0 : ℚ))]) (fun _ _ => ())
    "L2" 0 [((0 : ℚ), (0 : ℚ))] [[0]] (fun _ => [[0]]) () 2 1 (by norm_num)

/-- C4, as literally stated, is false for the demo orchestrator
(`src/demo/imlelab.ts` lines 1011-1026): with a true-sample provider that
advances between calls (`realStream j = [(j, 0)]`), the first and second
`minimize` closures of one iteration already consume different real batches, so
the `kGSteps` steps do not share one matched assignment computed once per
iteration. -/
theorem C4_counterexample :
    ((kGStepsLoop_demo (fun (_ : Unit) _ => [((0 : ℚ), (0 : ℚ))]) (fun _ _ => ())
        "L2" 0 (fun j => [((j : ℚ), 0)]) (fun _ => [[0]]) (fun _ => [[0]]) () 2).1.map
          (fun c => c.realBatch))
      = [[((0 : ℚ), (0 : ℚ))], [((1 : ℚ), (0 : ℚ))]]
    ∧ ([((0 : ℚ), (0 : ℚ))] : List Point) ≠ [((1 : ℚ), (0 : ℚ))] := by
  constructor
  · norm_num [kGStepsLoop_demo, List.range_succ]
  · norm_num [Prod.ext_iff]

/-- A tensor allocation performed by `initializeModelVariables`: either a
`tf.randomNormal(shape, mean, stdev)` draw or a `tf.zeros(shape)` bias. -/
inductive InitTensor where
  | randomNormal (shape : List ℕ) (mean stdev : ℝ)
  | zeros (shape : List ℕ)

/-- `glorotStd` of `src/demo/imle_model.ts` lines 3-5: `sqrt(2 / (fanIn + fanOut))`. -/
noncomputable def glorotStd (fanIn fanOut : ℕ) : ℝ :=
  Real.sqrt (2 / (fanIn + fanOut))

/-- The allocation sequence of `initializeModelVariables` in the refined variant
(`src/demo/imle_model.ts` lines 32-56): layer-0 weights `[noiseSize, neurons]`
with std `glorotStd`, hidden weights `[neurons, neurons]` with `glorotStd`, final
weights `[neurons, 2]` with `glorotStd`, and a zero bias after each weight. -/
noncomputable def initializeModelVariables
    (noiseSize numGeneratorLayers numGeneratorNeurons : ℕ) : List InitTensor :=
  [InitTensor.randomNormal [noiseSize, numGeneratorNeurons] 0
      (glorotStd noiseSize numGeneratorNeurons),
    InitTensor.zeros [numGeneratorNeurons]]
  ++ (List.range numGeneratorLayers).flatMap (fun _ =>
      [InitTensor.randomNormal [numGeneratorNeurons, numGeneratorNeurons] 0
          (glorotStd numGeneratorNeurons numGeneratorNeurons),
        InitTensor.zeros [numGeneratorNeurons]])
  ++ [InitTensor.randomNormal [numGeneratorNeurons, 2] 0
        (glorotStd numGeneratorNeurons 2),
      InitTensor.zeros [2]]

/-- The allocation sequence of `initializeModelVariables` in the legacy variant
(`src/unnamed/part_000` lines 20-47, identically `src/demo/imle_model.ts` lines
167-194): layer-0 weights with std `1/sqrt(2)` (a hard-coded `2`, not
`noiseSize`), hidden and final weights with std `1/sqrt(numGeneratorNeurons)`,
and a zero bias after each weight. -/
noncomputable def initializeModelVariables_legacy
    (noiseSize numGeneratorLayers numGeneratorNeurons : ℕ) : List InitTensor :=
  [InitTensor.randomNormal [noiseSize, numGeneratorNeurons] 0 (1 / Real.sqrt 2),
    InitTensor.zeros [numGeneratorNeurons]]
  ++ (List.range numGeneratorLayers).flatMap (fun _ =>
      [InitTensor.randomNormal [numGeneratorNeurons, numGeneratorNeurons] 0
          (1 / Real.sqrt numGeneratorNeurons),
        InitTensor.zeros [numGeneratorNeurons]])
  ++ [InitTensor.randomNormal [numGeneratorNeurons, 2] 0
        (1 / Real.sqrt numGeneratorNeurons),
      InitTensor.zeros [2]]

/-- C5 (amended): the refined scheme draws every weight from a zero-mean normal
with std `sqrt(2/(fanIn+fanOut))` and zero-initialises every bias; the legacy
scheme draws the hidden and final weights with std `1/sqrt(fanIn)` and zero
biases, but its layer-0 std is the hard-coded `1/sqrt(2)`, which agrees with
`1/sqrt(fanIn) = 1/sqrt(noiseSize)` only when `noiseSize = 2` (see the
counterexample). -/
theorem C5_init_distributions (ns nl nn : ℕ) :
    (∀ t ∈ initializeModelVariables ns nl nn,
        (∃ s, t = InitTensor.zeros s)
        ∨ ∃ fi fo, t = InitTensor.randomNormal [fi, fo] 0 (glorotStd fi fo))
    ∧ ∃ rest, initializeModelVariables_legacy ns nl nn
          = InitTensor.randomNormal [ns, nn] 0 (1 / Real.sqrt 2) :: rest
        ∧ ∀ t ∈ rest, (∃ s, t = InitTensor.zeros s)
            ∨ ∃ fi fo, t = InitTensor.randomNormal [fi, fo] 0 (1 / Real.sqrt fi) := by
  constructor
  · intro t ht
    simp only [initializeModelVariables, List.mem_append, List.mem_flatMap,
      List.mem_range, List.mem_cons, List.mem_singleton, List.not_mem_nil,
      or_false] at ht
    rcases ht with ((h | h) | ⟨a, _, h | h⟩) | (h | h)
    all_goals subst h
    · exact Or.inr ⟨ns, nn, rfl⟩
    · exact Or.inl ⟨[nn], rfl⟩
    · exact Or.inr ⟨nn, nn, rfl⟩
    · exact Or.inl ⟨[nn], rfl⟩
    · exact Or.inr ⟨nn, 2, rfl⟩
    · exact Or.inl ⟨[2], rfl⟩
  · refine ⟨[InitTensor.zeros [nn]]
      ++ (List.range nl).flatMap (fun _ =>
          [InitTensor.randomNormal [nn, nn] 0 (1 / Real.sqrt nn),
            InitTensor.zeros [nn]])
      ++ [InitTensor.randomNormal [nn, 2] 0 (1 / Real.sqrt nn),
          InitTensor.zeros [2]], by simp [initializeModelVariables_legacy], ?_⟩
    intro t ht
    simp only [List.mem_append, List.mem_flatMap, List.mem_range, List.mem_cons,
      List.mem_singleton, List.not_mem_nil, or_false] at ht
    rcases ht with (h | ⟨a, _, h | h⟩) | (h | h)
    all_goals subst h
    · exact Or.inl ⟨[nn], rfl⟩
    · exact Or.inr ⟨nn, nn, rfl⟩
    · exact Or.inl ⟨[nn], rfl⟩
    · exact Or.inr ⟨nn, 2, rfl⟩
    · exact Or.inl ⟨[2], rfl⟩

theorem C5_init_distributions_witness :
    (∃ s, InitTensor.zeros [4] = InitTensor.zeros s)
    ∨ ∃ fi fo, InitTensor.zeros [4] = InitTensor.randomNormal [fi, fo] 0 (glorotStd fi fo) :=
  (C5_init_distributions 3 0 4).1 (InitTensor.zeros [4])
    (by simp [initializeModelVariables])

/-- C5, as literally stated, is false: the legacy scheme's layer-0 standard
deviation is the hard-coded `1/sqrt(2)`, not `1/sqrt(fanIn)`; at `noiseSize = 4`
the code passes `1/sqrt(2)` where the claim requires `1/sqrt(4)`. -/
theorem C5_counterexample :
    (initializeModelVariables_legacy 4 0 3).getD 0 (InitTensor.zeros [])
        = InitTensor.randomNormal [4, 3] 0 (1 / Real.sqrt 2)
    ∧ (1 : ℝ) / Real.sqrt 2 ≠ 1 / Real.sqrt 4 := by
  constructor
  · simp [initializeModelVariables_legacy]
  · have h4 : Real.sqrt 4 = 2 := by
      rw [show (4 : ℝ) = 2 ^ 2 by norm_num, Real.sqrt_sq (by norm_num : (0 : ℝ) ≤ 2)]
    have h2 : Real.sqrt 2 < 2 := by
      nlinarith [Real.sq_sqrt (show (0 : ℝ) ≤ 2 by norm_num), Real.sqrt_nonneg 2]
    have hpos : 0 < Real.sqrt 2 := Real.sqrt_pos.mpr (by norm_num)
    rw [h4]
    intro heq
    rw [div_eq_div_iff (ne_of_gt hpos) (by norm_num : (2 : ℝ) ≠ 0)] at heq
    linarith

/-- The fixed hyperparameters handed by `updateOptimizer` to the `tf.train`
factories, one constructor per optimizer kind. -/
inductive OptimizerSpec where
  | adam (learningRate beta1 beta2 : ℚ)
  | adagrad (learningRate : ℚ)
  | rmsprop (learningRate decay momentum eps : ℚ) (centered : Bool)
  | sgd (learningRate : ℚ)
deriving DecidableEq

/-- `updateOptimizer` of `src/demo/imle_model.ts` lines 132-146: a `switch` on
the optimizer name; `Adam` gets `(lr, 0.9, 0.999)`, `Adagrad` gets `(lr)`,
`RMSProp` gets `(lr, 0.9, 0.0, 1e-8, false)`, and every other name falls through
to plain `SGD(lr)`. -/
def updateOptimizer (optimizerType : String) (learningRate : ℚ) : OptimizerSpec :=
  if optimizerType = "Adam" then
    OptimizerSpec.adam learningRate (9 / 10) (999 / 1000)
  else if optimizerType = "Adagrad" then
    OptimizerSpec.adagrad learningRate
  else if optimizerType = "RMSProp" then
    OptimizerSpec.rmsprop learningRate (9 / 10) 0 (1 / 100000000) false
  else
    OptimizerSpec.sgd learningRate

/-- C6: the four known optimizer names map to their documented fixed
hyperparameters, and every unknown name configures exactly what `"SGD"`
configures at the same learning rate. -/
theorem C6_updateOptimizer (learningRate : ℚ) (s : String) :
    updateOptimizer "Adam" learningRate
        = OptimizerSpec.adam learningRate (9 / 10) (999 / 1000)
    ∧ updateOptimizer "Adagrad" learningRate = OptimizerSpec.adagrad learningRate
    ∧ updateOptimizer "RMSProp" learningRate
        = OptimizerSpec.rmsprop learningRate (9 / 10) 0 (1 / 100000000) false
    ∧ updateOptimizer "SGD" learningRate = OptimizerSpec.sgd learningRate
    ∧ (s ≠ "Adam" → s ≠ "Adagrad" → s ≠ "RMSProp" →
        updateOptimizer s learningRate = updateOptimizer "SGD" learningRate) := by
  refine ⟨rfl, rfl, rfl, rfl, ?_⟩
  intro h1 h2 h3
  rw [updateOptimizer, if_neg h1, if_neg h2, if_neg h3]
  rfl

theorem C6_updateOptimizer_witness :
    updateOptimizer "Adam" (1 / 100)
        = OptimizerSpec.adam (1 / 100) (9 / 10) (999 / 1000)
    ∧ updateOptimizer "Adagrad" (1 / 100) = OptimizerSpec.adagrad (1 / 100)
    ∧ updateOptimizer "RMSProp" (1 / 100)
        = OptimizerSpec.rmsprop (1 / 100) (9 / 10) 0 (1 / 100000000) false
    ∧ updateOptimizer "SGD" (1 / 100) = OptimizerSpec.sgd (1 / 100)
    ∧ updateOptimizer "Foo" (1 / 100) = updateOptimizer "SGD" (1 / 100) := by
  have h := C6_updateOptimizer (1 / 100) "Foo"
  exact ⟨h.1, h.2.1, h.2.2.1, h.2.2.2.1,
    h.2.2.2.2 (by decide) (by decide) (by decide)⟩

/-- One generator layer: a weight matrix (stored column-major, one list per
output neuron) and a bias vector.  The source keeps these in the flat
`gVariables` array as consecutive weight/bias pairs (`2 + i*2`, `3 + i*2`);
the layer record is the same data grouped per layer. -/
structure Layer where
  weightCols : List (List ℝ)
  bias : List ℝ

/-- Row-vector-times-matrix dot product for one output column. -/
noncomputable def dotR (v w : List ℝ) : ℝ :=
  (List.zipWith (fun a b => a * b) v w).sum

/-- `x.matMul(W).add(B)` for a single input row. -/
noncomputable def affine (x : List ℝ) (l : Layer) : List ℝ :=
  List.zipWith (fun c b => dotR x c + b) l.weightCols l.bias

/-- `leaky` of `src/demo/imle_model.ts` lines 7-13: `maximum(x, 0.01 * x)`. -/
noncomputable def leakyRelu (x : ℝ) : ℝ :=
  max x ((1 / 100) * x)

/-- `relu()` as used by the legacy generator. -/
noncomputable def relu (x : ℝ) : ℝ :=
  max x 0

/-- `generator` of the refined variant (`src/demo/imle_model.ts` lines 63-77):
leaky-ReLU hidden activations, and output `tanh(..) + 0.5` coordinatewise. -/
noncomputable def generator_refined (layer0 : Layer) (hidden : List Layer)
    (lastLayer : Layer) (noiseRow : List ℝ) : List ℝ :=
  let h0 := (affine noiseRow layer0).map leakyRelu
  let h := hidden.foldl (fun h l => (affine h l).map leakyRelu) h0
  (affine h lastLayer).map (fun z => Real.tanh z + 1 / 2)

/-- `generator` of the legacy variant (`src/demo/imle_model.ts` lines 201-215,
`src/unnamed/part_000` lines 54-68): ReLU hidden activations and a plain `tanh`
output. -/
noncomputable def generator_legacy (layer0 : Layer) (hidden : List Layer)
    (lastLayer : Layer) (noiseRow : List ℝ) : List ℝ :=
  let h0 := (affine noiseRow layer0).map relu
  let h := hidden.foldl (fun h l => (affine h l).map relu) h0
  (affine h lastLayer).map Real.tanh

theorem tanh_bounds (z : ℝ) : -1 < Real.tanh z ∧ Real.tanh z < 1 := by
  have hc : 0 < Real.cosh z := Real.cosh_pos z
  have h1 : Real.cosh z - Real.sinh z = Real.exp (-z) := Real.cosh_sub_sinh z
  have h2 : Real.cosh z + Real.sinh z = Real.exp z := Real.cosh_add_sinh z
  have he1 : 0 < Real.exp (-z) := Real.exp_pos _
  have he2 : 0 < Real.exp z := Real.exp_pos _
  rw [Real.tanh_eq_sinh_div_cosh]
  constructor
  · rw [lt_div_iff hc]; linarith
  · rw [div_lt_iff hc]; linarith

/-- C7: for every parameter configuration and every latent input, each coordinate
of the refined generator's output lies in `[-0.5, 1.5]` (indeed strictly inside),
and each coordinate of the legacy generator's output lies in `[-1, 1]`. -/
theorem C7_generator_range (layer0 lastLayer : Layer) (hidden : List Layer)
    (noiseRow : List ℝ) (y : ℝ) :
    (y ∈ generator_refined layer0 hidden lastLayer noiseRow →
      -(1 / 2) ≤ y ∧ y ≤ 3 / 2)
    ∧ (y ∈ generator_legacy layer0 hidden lastLayer noiseRow →
      -1 ≤ y ∧ y ≤ 1) := by
  constructor
  · intro hy
    simp only [generator_refined] at hy
    obtain ⟨z, _, rfl⟩ := List.mem_map.mp hy
    have hb := tanh_bounds z
    constructor <;> linarith [hb.1, hb.2]
  · intro hy
    simp only [generator_legacy] at hy
    obtain ⟨z, _, rfl⟩ := List.mem_map.mp hy
    have hb := tanh_bounds z
    constructor <;> linarith [hb.1, hb.2]

theorem C7_generator_range_witness :
    (-(1 / 2) ≤ Real.tanh 0 + 1 / 2 ∧ Real.tanh 0 + 1 / 2 ≤ 3 / 2)
    ∧ (-1 ≤ Real.tanh 0 ∧ Real.tanh 0 ≤ 1) := by
  constructor
  · exact (C7_generator_range ⟨[[0]], [0]⟩ ⟨[[1]], [0]⟩ [] [0] (Real.tanh 0 + 1 / 2)).1
      (by simp [generator_refined, affine, dotR, leakyRelu])
  · exact (C7_generator_range ⟨[[0]], [0]⟩ ⟨[[1]], [0]⟩ [] [0] (Real.tanh 0)).2
      (by simp [generator_legacy, affine, dotR, relu])

/-- One entry of the distance matrix in `nearest_neighbour` of
`src/demo/imle_model.ts` lines 88-102, over the reals so the `Barrier` branch's
square root is representable: `L1` is the abs-sum, `Barrier` is
`r + 1e-3 / (r + 1e-8)` with `r` the Euclidean distance, and every other name
(including `L2`) is the squared-L2 sum. -/
noncomputable def distanceEntry (distanceType : String) (p q : ℝ × ℝ) : ℝ :=
  if distanceType = "L1" then |p.1 - q.1| + |p.2 - q.2|
  else if distanceType = "Barrier" then
    Real.sqrt ((p.1 - q.1) ^ 2 + (p.2 - q.2) ^ 2)
      + (1 / 1000) / (Real.sqrt ((p.1 - q.1) ^ 2 + (p.2 - q.2) ^ 2) + 1 / 100000000)
  else (p.1 - q.1) ^ 2 + (p.2 - q.2) ^ 2

/-- The full distance matrix over the reals: entry `(i, j)` compares
`real[i]` with `gen[j]`. -/
noncomputable def distancesR (distanceType : String)
    (realData generatedData : List (ℝ × ℝ)) : List (List ℝ) :=
  realData.map (fun p => generatedData.map (fun q => distanceEntry distanceType p q))

/-- C8: every `L1` and `L2` distance entry is nonnegative; every `Barrier` entry
dominates the Euclidean distance of the same cell; and any metric name other
than `L1` and `Barrier` produces exactly the `L2` matrix. -/
theorem C8_distance_properties (p q : ℝ × ℝ) (distanceType : String)
    (realData generatedData : List (ℝ × ℝ)) :
    0 ≤ distanceEntry "L1" p q
    ∧ 0 ≤ distanceEntry "L2" p q
    ∧ Real.sqrt ((p.1 - q.1) ^ 2 + (p.2 - q.2) ^ 2) ≤ distanceEntry "Barrier" p q
    ∧ (distanceType ≠ "L1" → distanceType ≠ "Barrier" →
        distancesR distanceType realData generatedData
          = distancesR "L2" realData generatedData) := by
  refine ⟨?_, ?_, ?_, ?_⟩
  · rw [distanceEntry, if_pos rfl]
    positivity
  · rw [distanceEntry, if_neg (by decide), if_neg (by decide)]
    positivity
  · rw [distanceEntry, if_neg (by decide), if_pos rfl]
    have hr : (0 : ℝ) ≤ Real.sqrt ((p.1 - q.1) ^ 2 + (p.2 - q.2) ^ 2) :=
      Real.sqrt_nonneg _
    have hpen : (0 : ℝ)
        ≤ (1 / 1000) / (Real.sqrt ((p.1 - q.1) ^ 2 + (p.2 - q.2) ^ 2) + 1 / 100000000) := by
      positivity
    linarith
  · intro h1 h2
    have hentry : ∀ a b : ℝ × ℝ,
        distanceEntry distanceType a b = distanceEntry "L2" a b := by
      intro a b
      rw [distanceEntry, if_neg h1, if_neg h2, distanceEntry,
        if_neg (by decide), if_neg (by decide)]
    simp [distancesR, hentry]

theorem C8_distance_properties_witness :
    0 ≤ distanceEntry "L1" ((3 : ℝ), 4) (0, 0)
    ∧ 0 ≤ distanceEntry "L2" ((3 : ℝ), 4) (0, 0)
    ∧ Real.sqrt ((((3 : ℝ), 4).1 - ((0 : ℝ), 0).1) ^ 2
        + (((3 : ℝ), 4).2 - ((0 : ℝ), 0).2) ^ 2)
      ≤ distanceEntry "Barrier" ((3 : ℝ), 4) (0, 0)
    ∧ distancesR "Foo" [((1 : ℝ), 2)] [((3 : ℝ), 4)]
        = distancesR "L2" [((1 : ℝ), 2)] [((3 : ℝ), 4)] := by
  have h := C8_distance_properties ((3 : ℝ), 4) ((0 : ℝ), 0) "Foo"
    [((1 : ℝ), 2)] [((3 : ℝ), 4)]
  exact ⟨h.1, h.2.1, h.2.2.1, h.2.2.2 (by decide) (by decide)⟩

/-- A weight tensor: its shape and its flat data. -/
structure TensorData where
  shape : List ℕ
  data : List ℚ
deriving DecidableEq

/-- Models the `tf.Variable.assign` framework contract used by
`loadPretrainedWeights`: assigning a tensor whose shape differs from the
variable's shape fails (throws); otherwise the variable takes the new value. -/
def assign (v t : TensorData) : Option TensorData :=
  if t.shape = v.shape then some t else none

/-- The traversal inside `loadPretrainedWeights` (`src/demo/imle_model.ts`
lines 58-61): variable `i` is assigned from the decoded entry keyed `g-{i}`;
a missing key or a shape mismatch is an error. -/
def loadAux (decoded : String → Option TensorData) :
    List TensorData → ℕ → Option (List TensorData)
  | [], _ => some []
  | v :: vs, i =>
    (decoded ("g-" ++ toString i)).bind (fun t =>
      (assign v t).bind (fun v2 =>
        (loadAux decoded vs (i + 1)).map (fun rest => v2 :: rest)))

/-- `loadPretrainedWeights`: each current variable, in order, is assigned from
the mapping entry keyed by its position. -/
def loadPretrainedWeights (gVariables : List TensorData)
    (decoded : String → Option TensorData) : Option (List TensorData) :=
  loadAux decoded gVariables 0

theorem loadAux_some (decoded : String → Option TensorData) :
    ∀ (vs : List TensorData) (st : ℕ) (out : List TensorData),
      loadAux decoded vs st = some out →
      ∀ i, i < vs.length →
        ∃ t, decoded ("g-" ++ toString (st + i)) = some t
          ∧ t.shape = (vs.getD i ⟨[], []⟩).shape
          ∧ out.getD i ⟨[], []⟩ = t := by
  intro vs
  induction vs with
  | nil => intro st out _ i hi; simp at hi
  | cons v rest ih =>
    intro st out h i hi
    rw [loadAux] at h
    cases hdec : decoded ("g-" ++ toString st) with
    | none => rw [hdec] at h; simp at h
    | some t =>
      rw [hdec] at h
      simp only [Option.some_bind] at h
      by_cases hsh : t.shape = v.shape
      · rw [show assign v t = some t from by unfold assign; rw [if_pos hsh]] at h
        simp only [Option.some_bind] at h
        cases hrec : loadAux decoded rest (st + 1) with
        | none => rw [hrec] at h; simp at h
        | some out2 =>
          rw [hrec] at h
          simp only [Option.map_some', Option.some.injEq] at h
          subst h
          cases i with
          | zero =>
            refine ⟨t, by simpa using hdec, by simpa using hsh, by simp⟩
          | succ k =>
            have hst : st + (k + 1) = st + 1 + k := by omega
            rw [hst]
            simpa using ih (st + 1) out2 hrec k (by simpa using hi)
      · rw [show assign v t = none from by unfold assign; rw [if_neg hsh]] at h
        simp at h

theorem loadAux_mismatch (decoded : String → Option TensorData) :
    ∀ (vs : List TensorData) (st i : ℕ), i < vs.length →
      (∀ t, decoded ("g-" ++ toString (st + i)) = some t →
        t.shape ≠ (vs.getD i ⟨[], []⟩).shape) →
      loadAux decoded vs st = none := by
  intro vs
  induction vs with
  | nil => intro st i hi; simp at hi
  | cons v rest ih =>
    intro st i hi hmis
    cases i with
    | zero =>
      rw [loadAux]
      cases hdec : decoded ("g-" ++ toString st) with
      | none => rfl
      | some t =>
        have hne : t.shape ≠ v.shape := by
          simpa using hmis t (by simpa using hdec)
        rw [Option.some_bind,
          show assign v t = none from by unfold assign; rw [if_neg hne]]
        rfl
    | succ k =>
      have hrec : loadAux decoded rest (st + 1) = none := by
        refine ih (st + 1) k (by simpa using hi) ?_
        intro t ht
        have hst : st + 1 + k = st + (k + 1) := by omega
        rw [hst] at ht
        simpa using hmis t ht
      rw [loadAux]
      cases hdec : decoded ("g-" ++ toString st) with
      | none => rfl
      | some t =>
        by_cases hsh : t.shape = v.shape
        · rw [Option.some_bind,
            show assign v t = some t from by unfold assign; rw [if_pos hsh],
            Option.some_bind, hrec]
          rfl
        · rw [Option.some_bind,
            show assign v t = none from by unfold assign; rw [if_neg hsh]]
          rfl

/-- C9: a successful `loadPretrainedWeights` takes each parameter, in positional
order, from the mapping entry keyed `g-{i}` with exactly the currently
configured shape; and if the entry for some position has a different shape (or
is missing), loading fails with an error rather than silently coercing. -/
theorem C9_loadPretrainedWeights (gVariables : List TensorData)
    (decoded : String → Option TensorData) :
    (∀ out, loadPretrainedWeights gVariables decoded = some out →
      ∀ i, i < gVariables.length →
        ∃ t, decoded ("g-" ++ toString i) = some t
          ∧ t.shape = (gVariables.getD i ⟨[], []⟩).shape
          ∧ out.getD i ⟨[], []⟩ = t)
    ∧ (∀ i, i < gVariables.length →
        (∀ t, decoded ("g-" ++ toString i) = some t →
          t.shape ≠ (gVariables.getD i ⟨[], []⟩).shape) →
        loadPretrainedWeights gVariables decoded = none) := by
  constructor
  · intro out h i hi
    have := loadAux_some decoded gVariables 0 out h i hi
    simpa using this
  · intro i hi hmis
    exact loadAux_mismatch decoded gVariables 0 i hi (by simpa using hmis)

theorem C9_loadPretrainedWeights_witness :
    ∃ t, (fun s => if s = "g-0" then some (⟨[2], [5, 6]⟩ : TensorData) else none)
        ("g-" ++ toString 0) = some t
      ∧ t.shape = (([⟨[2], [1, 2]⟩] : List TensorData).getD 0 ⟨[], []⟩).shape
      ∧ (([⟨[2], [5, 6]⟩] : List TensorData).getD 0 ⟨[], []⟩) = t :=
  (C9_loadPretrainedWeights [⟨[2], [1, 2]⟩]
      (fun s => if s = "g-0" then some (⟨[2], [5, 6]⟩ : TensorData) else none)).1
    [⟨[2], [5, 6]⟩] rfl 0 (by decide)

/-- C3: in Scenario B — real points `(0,0)`, `(1,1)`, candidates `(0,0)`, `(1,1)`,
`(0.5,0.5)`, `epsilon = 0.1`, squared-L2 metric — the per-candidate min distances
are `[0, 0, 1/2]`, so candidates 0 and 1 are rejected by the unforced filter while
candidate 2 passes it; candidate 2 is also the argmax of the min distances (the
force-keep target), the final keep mask is `[false, false, true]`, and the
returned match indices are `[2, 2]`. -/
theorem C3_scenarioB :
    minDist (distancesQ "L2" [((0 : ℚ), (0 : ℚ)), (1, 1)]
        [((0 : ℚ), (0 : ℚ)), (1, 1), (1 / 2, 1 / 2)]) = [0, 0, 1 / 2]
    ∧ keepMaskBase (distancesQ "L2" [((0 : ℚ), (0 : ℚ)), (1, 1)]
        [((0 : ℚ), (0 : ℚ)), (1, 1), (1 / 2, 1 / 2)]) (1 / 10) = [false, false, true]
    ∧ argmaxIdx (minDist (distancesQ "L2" [((0 : ℚ), (0 : ℚ)), (1, 1)]
        [((0 : ℚ), (0 : ℚ)), (1, 1), (1 / 2, 1 / 2)])) = 2
    ∧ keepMask (distancesQ "L2" [((0 : ℚ), (0 : ℚ)), (1, 1)]
        [((0 : ℚ), (0 : ℚ)), (1, 1), (1 / 2, 1 / 2)]) (1 / 10) = [false, false, true]
    ∧ nearest_neighbour "L2" (1 / 10) [((0 : ℚ), (0 : ℚ)), (1, 1)]
        [((0 : ℚ), (0 : ℚ)), (1, 1), (1 / 2, 1 / 2)] = [2, 2] := by
  have hD : distancesQ "L2" [((0 : ℚ), (0 : ℚ)), (1, 1)]
        [((0 : ℚ), (0 : ℚ)), (1, 1), (1 / 2, 1 / 2)]
      = [[0, 2, 1 / 2], [2, 0, 1 / 2]] := by
    rw [distancesQ_eq_L2 _ (by decide)]
    norm_num
  have hm : minDist [[(0 : ℚ), 2, 1 / 2], [2, 0, 1 / 2]] = [0, 0, 1 / 2] := by
    norm_num [minDist]
  have hamax : argmaxIdx [(0 : ℚ), 0, 1 / 2] = 2 := by
    norm_num [argmaxIdx]
  have hbase : keepMaskBase [[(0 : ℚ), 2, 1 / 2], [2, 0, 1 / 2]] (1 / 10)
      = [false, false, true] := by
    norm_num [keepMaskBase, hm]
  have hk : keepMask [[(0 : ℚ), 2, 1 / 2], [2, 0, 1 / 2]] (1 / 10)
      = [false, false, true] := by
    norm_num [keepMask, keepMaskBase, forceKeep, hm, argmaxIdx, List.range_succ]
  have hmd : maskedDistances [[(0 : ℚ), 2, 1 / 2], [2, 0, 1 / 2]] (1 / 10)
      = [[10 ^ 9, 2 + 10 ^ 9, 1 / 2], [2 + 10 ^ 9, 10 ^ 9, 1 / 2]] := by
    norm_num [maskedDistances, hk]
  refine ⟨by rw [hD, hm], by rw [hD, hbase], by rw [hD, hm, hamax], by rw [hD, hk], ?_⟩
  show nnMatch _ _ = _
  show (maskedDistances _ _).map argminIdx = _
  rw [hD, hmd]
  norm_num [argminIdx]
